import Mathlib

/-!
Verification of the data-grav streaming data generator
(`src/data-generator/generate.js`).

Bytes are modelled as natural numbers (values below 256), buffers and
strings as lists of bytes.  The push-style Node `Readable` is modelled as
an explicit state plus a pull step (`readStep`, embedding `_read`), driven
to completion by `drive`.
-/

/-- JavaScript `a || d` on an optional numeric field: `undefined` and `0`
are falsy, so both select the default `d`. -/
def jsOrDefault (a : Option Nat) (d : Nat) : Nat :=
  match a with
  | none => d
  | some 0 => d
  | some n => n

/-- The default chunk size used by both generators: `64 * 1024`. -/
def defaultChunkSize : Nat := 64 * 1024

/-- Byte value of the line feed appended to every text base pattern. -/
def newlineByte : Nat := 10

/-- The built-in default text pattern of `TextDataGenerator` (before the
line feed is appended). -/
def defaultLoremText : String :=
  "Lorem ipsum dolor sit amet, consectetur adipiscing elit. " ++
  "Sed do eiusmod tempor incididunt ut labore et dolore magna aliqua. " ++
  "Ut enim ad minim veniam, quis nostrud exercitation ullamco laboris. " ++
  "Duis aute irure dolor in reprehenderit in voluptate velit esse cillum. " ++
  "Excepteur sint occaecat cupidatat non proident, sunt in culpa qui officia. "

/-- A string as a list of byte values (the sources only use ASCII text,
where each character is one byte). -/
def strBytes (s : String) : List Nat := s.toList.map Char.toNat

/-- `TextDataGenerator` base pattern: `options.pattern || default`, then a
line feed is appended (`this.basePattern += '\n'`).  An absent or empty
caller pattern is falsy in JavaScript, so it selects the default text. -/
def textBasePattern (pattern : Option (List Nat)) : List Nat :=
  (match pattern with
   | none => strBytes defaultLoremText
   | some [] => strBytes defaultLoremText
   | some p => p) ++ [newlineByte]

/-- State of a generator: the target length, the bytes emitted so far and
the prebuilt chunk buffer (shared by `TextDataGenerator` and
`BinaryDataGenerator`, whose `_read` bodies are identical). -/
structure GenState where
  targetSize : Nat
  generated : Nat
  chunk : List Nat
  deriving Repr, DecidableEq

/-- One pull of the stream, embedding `_read`: at or past the target it
signals end of stream (`none`); otherwise it emits the first
`min remaining chunk.length` bytes of the prebuilt chunk and advances
`generated` by the emitted length. -/
def readStep (g : GenState) : Option (List Nat) × GenState :=
  if g.targetSize ≤ g.generated then
    (none, g)
  else
    let remaining := g.targetSize - g.generated
    let toWrite := min remaining g.chunk.length
    let data := g.chunk.take toWrite
    (some data, { g with generated := g.generated + data.length })

/-- Pull the generator repeatedly until end of stream, collecting the
emitted chunks.  `fuel` bounds the number of pulls; any
`fuel ≥ targetSize - generated` is enough when the chunk is nonempty. -/
def drive : Nat → GenState → List (List Nat)
  | 0, _ => []
  | fuel + 1, g =>
    match readStep g with
    | (none, _) => []
    | (some data, g') => data :: drive fuel g'

/-- The full sequence of chunks a fresh generator yields. -/
def runGenerator (g : GenState) : List (List Nat) :=
  drive g.targetSize g

/-- `TextDataGenerator` constructor: build the base pattern, duplicate it
`Math.ceil(chunkSize / basePattern.length)` times and truncate to exactly
`chunkSize` bytes. -/
def mkTextGenerator (targetSize : Nat) (pattern : Option (List Nat))
    (chunkSizeOpt : Option Nat) : GenState :=
  let basePattern := textBasePattern pattern
  let chunkSize := jsOrDefault chunkSizeOpt defaultChunkSize
  let repetitions := (chunkSize + basePattern.length - 1) / basePattern.length
  { targetSize := targetSize
    generated := 0
    chunk := (List.flatten (List.replicate repetitions basePattern)).take chunkSize }

/-- The 16-byte base sequence of the default binary pattern. -/
def sequenceBase : List Nat := [0, 1, 2, 3, 4, 5, 6, 7, 8, 9, 10, 11, 12, 13, 14, 15]

/-- `BinaryDataGenerator.createBinaryPattern`: fill a buffer of `size`
bytes according to the pattern string.  `Math.random` is modelled by an
explicit source `rng`; `Math.floor(Math.random() * 256)` is `rng i % 256`.
Any pattern other than `random`, `zeros`, `ones` selects the repeating
0..15 sequence. -/
def createBinaryPattern (size : Nat) (pattern : String) (rng : Nat → Nat) : List Nat :=
  if pattern = "random" then
    (List.range size).map (fun i => rng i % 256)
  else if pattern = "zeros" then
    List.replicate size 0
  else if pattern = "ones" then
    List.replicate size 255
  else
    (List.range size).map (fun i => sequenceBase.getD (i % sequenceBase.length) 0)

/-- `BinaryDataGenerator` constructor: `chunkSize = options.chunkSize || 64*1024`,
then the chunk buffer is built once by `createBinaryPattern`. -/
def mkBinaryGenerator (targetSize : Nat) (chunkSizeOpt : Option Nat)
    (pattern : String) (rng : Nat → Nat) : GenState :=
  let chunkSize := jsOrDefault chunkSizeOpt defaultChunkSize
  { targetSize := targetSize
    generated := 0
    chunk := createBinaryPattern chunkSize pattern rng }

example : runGenerator (mkBinaryGenerator 5 (some 2) "sequence" (fun _ => 0)) =
    [[0, 1], [0, 1], [0]] := by decide

example : runGenerator (mkBinaryGenerator 0 (some 2) "zeros" (fun _ => 0)) = [] := by decide

example : runGenerator (mkTextGenerator 10 (some [65, 66]) (some 4)) =
    [[65, 66, 10, 65], [65, 66, 10, 65], [65, 66]] := by decide

/-- The first `t` bytes of the infinite repetition of a nonempty buffer
(pure characterisation of the concatenated generator output). -/
def cycleTake : List Nat → Nat → List Nat
  | _, 0 => []
  | [], _ + 1 => []
  | b :: rest, t + 1 =>
      (b :: rest).take (t + 1) ++ cycleTake (b :: rest) (t + 1 - (rest.length + 1))
termination_by _ t => t
decreasing_by simp_wf; omega

theorem cycleTake_zero (c : List Nat) : cycleTake c 0 = [] := by
  rcases c with _ | ⟨b, rest⟩ <;> simp [cycleTake]

theorem cycleTake_pos (c : List Nat) (hc : c ≠ []) (t : Nat) (ht : 0 < t) :
    cycleTake c t = c.take t ++ cycleTake c (t - c.length) := by
  rcases c with _ | ⟨b, rest⟩
  · exact absurd rfl hc
  · obtain ⟨s, rfl⟩ : ∃ s, t = s + 1 := ⟨t - 1, by omega⟩
    simp [cycleTake]

theorem cycleTake_length (c : List Nat) (hc : c ≠ []) :
    ∀ t, (cycleTake c t).length = t := by
  intro t
  induction t using Nat.strong_induction_on with
  | _ t ih =>
    rcases Nat.eq_zero_or_pos t with h0 | hpos
    · rw [h0, cycleTake_zero]
      rfl
    · have hL : 0 < c.length := List.length_pos_of_ne_nil hc
      rw [cycleTake_pos c hc t hpos]
      rw [List.length_append, List.length_take, ih (t - c.length) (by omega)]
      omega

theorem getD_take_of_lt (l : List Nat) (n i : Nat) (h : i < n) :
    (l.take n).getD i 0 = l.getD i 0 := by
  rw [List.getD_eq_getElem?_getD, List.getD_eq_getElem?_getD, List.getElem?_take, if_pos h]

theorem cycleTake_getD (c : List Nat) (hc : c ≠ []) :
    ∀ t i, i < t → (cycleTake c t).getD i 0 = c.getD (i % c.length) 0 := by
  intro t
  induction t using Nat.strong_induction_on with
  | _ t ih =>
    intro i hi
    have hL : 0 < c.length := List.length_pos_of_ne_nil hc
    rw [cycleTake_pos c hc t (by omega)]
    rcases lt_or_le i c.length with hiL | hiL
    · rw [List.getD_append _ _ _ _ (by rw [List.length_take]; omega)]
      rw [getD_take_of_lt c t i hi, Nat.mod_eq_of_lt hiL]
    · rw [List.getD_append_right _ _ _ _ (by rw [List.length_take]; omega)]
      rw [List.length_take]
      have hmin : min t c.length = c.length := by omega
      rw [hmin, ih (t - c.length) (by omega) (i - c.length) (by omega)]
      congr 1
      conv_rhs => rw [show i = (i - c.length) + c.length by omega, Nat.add_mod_right]

theorem drive_nil_of_le (fuel T g : Nat) (c : List Nat) (h : T ≤ g) :
    drive fuel ⟨T, g, c⟩ = [] := by
  cases fuel <;> simp [drive, readStep, h]

theorem drive_succ_pos (fuel T g : Nat) (c : List Nat) (h : g < T) :
    drive (fuel + 1) ⟨T, g, c⟩ =
      c.take (min (T - g) c.length) ::
        drive fuel ⟨T, g + min (T - g) c.length, c⟩ := by
  have hT : ¬ T ≤ g := by omega
  simp only [drive, readStep, if_neg hT]
  simp only [List.length_take]
  have : min (T - g) c.length ⊓ c.length = min (T - g) c.length := by omega
  rw [this]

theorem drive_sum_length (c : List Nat) (hc : c ≠ []) :
    ∀ fuel T g, T - g ≤ fuel →
      ((drive fuel ⟨T, g, c⟩).map List.length).sum = T - g := by
  intro fuel
  induction fuel with
  | zero =>
    intro T g h
    simp [drive]
    omega
  | succ fuel ih =>
    intro T g h
    by_cases hTg : T ≤ g
    · rw [drive_nil_of_le _ _ _ _ hTg]
      simp
      omega
    · have hL : 0 < c.length := List.length_pos_of_ne_nil hc
      rw [drive_succ_pos fuel T g c (by omega)]
      simp only [List.map_cons, List.sum_cons, List.length_take]
      rw [ih T (g + min (T - g) c.length) (by omega)]
      omega

theorem drive_count (c : List Nat) (hc : c ≠ []) :
    ∀ fuel T g, T - g ≤ fuel →
      (drive fuel ⟨T, g, c⟩).length = ((T - g) + c.length - 1) / c.length := by
  intro fuel
  induction fuel with
  | zero =>
    intro T g h
    have h0 : T - g = 0 := by omega
    have hL : 0 < c.length := List.length_pos_of_ne_nil hc
    simp only [drive, List.length_nil, h0, Nat.zero_add]
    rw [Nat.div_eq_of_lt (by omega)]
  | succ fuel ih =>
    intro T g h
    have hL : 0 < c.length := List.length_pos_of_ne_nil hc
    by_cases hTg : T ≤ g
    · rw [drive_nil_of_le _ _ _ _ hTg]
      have h0 : T - g = 0 := by omega
      rw [h0, List.length_nil, Nat.zero_add, Nat.div_eq_of_lt (by omega)]
    · rw [drive_succ_pos fuel T g c (by omega)]
      rw [List.length_cons, ih T (g + min (T - g) c.length) (by omega)]
      have hr : 0 < T - g := by omega
      have hrhs : (T - g + c.length - 1) / c.length = (T - g - 1) / c.length + 1 := by
        rw [show T - g + c.length - 1 = (T - g - 1) + c.length by omega,
          Nat.add_div_right _ hL]
      rw [hrhs]
      rcases le_or_lt (T - g) c.length with hcase | hcase
      · have e1 : T - (g + min (T - g) c.length) = 0 := by omega
        rw [e1, Nat.zero_add, Nat.div_eq_of_lt (by omega), Nat.div_eq_of_lt (by omega)]
      · have e1 : T - (g + min (T - g) c.length) = T - g - c.length := by omega
        rw [e1, show T - g - c.length + c.length - 1 = T - g - 1 by omega]

theorem drive_flatten (c : List Nat) (hc : c ≠ []) :
    ∀ fuel T g, T - g ≤ fuel →
      (drive fuel ⟨T, g, c⟩).flatten = cycleTake c (T - g) := by
  intro fuel
  induction fuel with
  | zero =>
    intro T g h
    have h0 : T - g = 0 := by omega
    rw [h0, cycleTake_zero]
    rfl
  | succ fuel ih =>
    intro T g h
    have hL : 0 < c.length := List.length_pos_of_ne_nil hc
    by_cases hTg : T ≤ g
    · rw [drive_nil_of_le _ _ _ _ hTg]
      have h0 : T - g = 0 := by omega
      rw [h0, cycleTake_zero]
      rfl
    · rw [drive_succ_pos fuel T g c (by omega), List.flatten_cons,
        ih T (g + min (T - g) c.length) (by omega)]
      rw [cycleTake_pos c hc (T - g) (by omega)]
      have htake : c.take (min (T - g) c.length) = c.take (T - g) := by
        rcases le_or_lt (T - g) c.length with hcase | hcase
        · rw [min_eq_left hcase]
        · rw [min_eq_right hcase.le, List.take_length, List.take_of_length_le hcase.le]
      rw [htake]
      congr 1
      congr 1
      omega

theorem drive_all_le (c : List Nat) (hc : c ≠ []) :
    ∀ fuel T g, T - g ≤ fuel →
      ∀ x ∈ drive fuel ⟨T, g, c⟩, x.length ≤ c.length := by
  intro fuel
  induction fuel with
  | zero =>
    intro T g h x hx
    simp [drive] at hx
  | succ fuel ih =>
    intro T g h x hx
    have hL : 0 < c.length := List.length_pos_of_ne_nil hc
    by_cases hTg : T ≤ g
    · rw [drive_nil_of_le _ _ _ _ hTg] at hx
      simp at hx
    · rw [drive_succ_pos fuel T g c (by omega)] at hx
      rcases List.mem_cons.mp hx with hx | hx
      · rw [hx, List.length_take]
        omega
      · exact ih T (g + min (T - g) c.length) (by omega) x hx

theorem drive_dropLast_full (c : List Nat) (hc : c ≠ []) :
    ∀ fuel T g, T - g ≤ fuel →
      ∀ x ∈ (drive fuel ⟨T, g, c⟩).dropLast, x.length = c.length := by
  intro fuel
  induction fuel with
  | zero =>
    intro T g h x hx
    simp [drive] at hx
  | succ fuel ih =>
    intro T g h x hx
    have hL : 0 < c.length := List.length_pos_of_ne_nil hc
    by_cases hTg : T ≤ g
    · rw [drive_nil_of_le _ _ _ _ hTg] at hx
      simp at hx
    · rw [drive_succ_pos fuel T g c (by omega)] at hx
      rcases le_or_lt (T - g) c.length with hcase | hcase
      · have hrest : drive fuel ⟨T, g + min (T - g) c.length, c⟩ = [] :=
          drive_nil_of_le _ _ _ _ (by omega)
        rw [hrest] at hx
        simp at hx
      · have hmin : min (T - g) c.length = c.length := by omega
        have hsum := drive_sum_length c hc fuel T (g + min (T - g) c.length) (by omega)
        have hrest : drive fuel ⟨T, g + min (T - g) c.length, c⟩ ≠ [] := by
          intro hnil
          rw [hnil] at hsum
          simp at hsum
          omega
        rw [List.dropLast_cons_of_ne_nil hrest] at hx
        rcases List.mem_cons.mp hx with hx | hx
        · rw [hx, List.length_take]
          omega
        · exact ih T (g + min (T - g) c.length) (by omega) x hx

theorem drive_getLastD_length (c : List Nat) (hc : c ≠ []) :
    ∀ fuel T g, 0 < T - g → T - g ≤ fuel →
      ((drive fuel ⟨T, g, c⟩).getLastD []).length =
        if (T - g) % c.length = 0 then c.length else (T - g) % c.length := by
  intro fuel
  induction fuel with
  | zero =>
    intro T g hpos h
    omega
  | succ fuel ih =>
    intro T g hpos h
    have hL : 0 < c.length := List.length_pos_of_ne_nil hc
    rw [drive_succ_pos fuel T g c (by omega)]
    rcases le_or_lt (T - g) c.length with hcase | hcase
    · have hrest : drive fuel ⟨T, g + min (T - g) c.length, c⟩ = [] :=
        drive_nil_of_le _ _ _ _ (by omega)
      rw [hrest]
      simp only [List.getLastD_cons, List.getLastD_nil, List.length_take]
      rcases lt_or_eq_of_le hcase with hlt | heq
      · rw [Nat.mod_eq_of_lt hlt, if_neg (by omega)]
        omega
      · rw [heq, Nat.mod_self, if_pos rfl]
        omega
    · have hmin : min (T - g) c.length = c.length := by omega
      have hsum := drive_sum_length c hc fuel T (g + min (T - g) c.length) (by omega)
      have hrest : drive fuel ⟨T, g + min (T - g) c.length, c⟩ ≠ [] := by
        intro hnil
        rw [hnil] at hsum
        simp at hsum
        omega
      rcases hdrive : drive fuel ⟨T, g + min (T - g) c.length, c⟩ with _ | ⟨a, l⟩
      · exact absurd hdrive hrest
      · rw [List.getLastD_cons, List.getLastD_cons]
        have ih2 := ih T (g + min (T - g) c.length) (by omega) (by omega)
        rw [hdrive, List.getLastD_cons] at ih2
        rw [ih2]
        have hmod : (T - (g + min (T - g) c.length)) % c.length = (T - g) % c.length := by
          rw [hmin, show T - (g + c.length) = T - g - c.length by omega]
          conv_rhs => rw [show T - g = (T - g - c.length) + c.length by omega,
            Nat.add_mod_right]
        rw [hmod]

theorem runGenerator_sum_length (T : Nat) (c : List Nat) (hc : c ≠ []) :
    ((runGenerator ⟨T, 0, c⟩).map List.length).sum = T := by
  have h := drive_sum_length c hc T T 0 (by omega)
  simpa [runGenerator] using h

theorem runGenerator_flatten_length (T : Nat) (c : List Nat) (hc : c ≠ []) :
    (runGenerator ⟨T, 0, c⟩).flatten.length = T := by
  rw [List.length_flatten, runGenerator_sum_length T c hc]

theorem runGenerator_getD (T : Nat) (c : List Nat) (hc : c ≠ []) (i : Nat) (hi : i < T) :
    (runGenerator ⟨T, 0, c⟩).flatten.getD i 0 = c.getD (i % c.length) 0 := by
  have h := drive_flatten c hc T T 0 (by omega)
  rw [runGenerator, h, Nat.sub_zero]
  exact cycleTake_getD c hc T i hi

theorem jsOrDefault_pos (a : Option Nat) (d : Nat) (hd : 0 < d) :
    0 < jsOrDefault a d := by
  match a with
  | none => exact hd
  | some 0 => exact hd
  | some (n + 1) => exact Nat.succ_pos n

theorem jsOrDefault_some_pos (n d : Nat) (hn : 0 < n) : jsOrDefault (some n) d = n := by
  match n, hn with
  | n + 1, _ => rfl

theorem createBinaryPattern_length (size : Nat) (pattern : String) (rng : Nat → Nat) :
    (createBinaryPattern size pattern rng).length = size := by
  unfold createBinaryPattern
  split_ifs <;> simp

theorem mkBinaryGenerator_eq (t : Nat) (cso : Option Nat) (p : String) (rng : Nat → Nat) :
    mkBinaryGenerator t cso p rng =
      ⟨t, 0, createBinaryPattern (jsOrDefault cso defaultChunkSize) p rng⟩ := rfl

theorem mkBinaryGenerator_chunk_ne_nil (t : Nat) (cso : Option Nat) (p : String)
    (rng : Nat → Nat) : (mkBinaryGenerator t cso p rng).chunk ≠ [] := by
  apply List.ne_nil_of_length_pos
  rw [mkBinaryGenerator_eq, createBinaryPattern_length]
  exact jsOrDefault_pos cso defaultChunkSize (by decide)

theorem textBasePattern_length_pos (pattern : Option (List Nat)) :
    0 < (textBasePattern pattern).length := by
  rw [textBasePattern.eq_def, List.length_append]
  simp

theorem le_ceil_div_mul (a L : Nat) (hL : 0 < L) : a ≤ (a + L - 1) / L * L := by
  have h1 : (a + L - 1) % L < L := Nat.mod_lt _ hL
  have h2 : L * ((a + L - 1) / L) + (a + L - 1) % L = a + L - 1 := Nat.div_add_mod _ _
  rw [Nat.mul_comm]
  omega

theorem mkTextGenerator_eq (t : Nat) (pattern : Option (List Nat)) (cso : Option Nat) :
    mkTextGenerator t pattern cso =
      ⟨t, 0,
        (List.flatten
            (List.replicate
              ((jsOrDefault cso defaultChunkSize + (textBasePattern pattern).length - 1) /
                (textBasePattern pattern).length)
              (textBasePattern pattern))).take (jsOrDefault cso defaultChunkSize)⟩ := rfl

theorem mkTextGenerator_chunk_length (t : Nat) (pattern : Option (List Nat))
    (cso : Option Nat) :
    (mkTextGenerator t pattern cso).chunk.length = jsOrDefault cso defaultChunkSize := by
  rw [mkTextGenerator_eq]
  have hL : 0 < (textBasePattern pattern).length := textBasePattern_length_pos pattern
  have hrep : jsOrDefault cso defaultChunkSize ≤
      (List.flatten
        (List.replicate
          ((jsOrDefault cso defaultChunkSize + (textBasePattern pattern).length - 1) /
            (textBasePattern pattern).length)
          (textBasePattern pattern))).length := by
    rw [List.length_flatten, List.map_replicate, List.sum_replicate, smul_eq_mul]
    exact le_ceil_div_mul _ _ hL
  simp only [List.length_take]
  omega

theorem mkTextGenerator_chunk_ne_nil (t : Nat) (pattern : Option (List Nat))
    (cso : Option Nat) : (mkTextGenerator t pattern cso).chunk ≠ [] := by
  apply List.ne_nil_of_length_pos
  rw [mkTextGenerator_chunk_length]
  exact jsOrDefault_pos cso defaultChunkSize (by decide)

theorem createBinaryPattern_sequence_getD (size : Nat) (rng : Nat → Nat) (j : Nat)
    (hj : j < size) :
    (createBinaryPattern size "sequence" rng).getD j 0 = j % 16 := by
  have hne1 : ("sequence" : String) ≠ "random" := by decide
  have hne2 : ("sequence" : String) ≠ "zeros" := by decide
  have hne3 : ("sequence" : String) ≠ "ones" := by decide
  rw [createBinaryPattern, if_neg hne1, if_neg hne2, if_neg hne3]
  rw [List.getD_eq_getElem?_getD, List.getElem?_map, List.getElem?_range hj]
  simp only [Option.map_some', Option.getD_some]
  have h16 : ∀ k, k < 16 → sequenceBase.getD k 0 = k := by decide
  rw [show j % sequenceBase.length = j % 16 from rfl]
  exact h16 (j % 16) (Nat.mod_lt _ (by omega))

theorem getD_flatten_replicate (base : List Nat) (hb : base ≠ []) :
    ∀ n i, i < n * base.length →
      (List.flatten (List.replicate n base)).getD i 0 = base.getD (i % base.length) 0 := by
  intro n
  induction n with
  | zero =>
    intro i hi
    omega
  | succ n ih =>
    intro i hi
    have hL : 0 < base.length := List.length_pos_of_ne_nil hb
    rw [List.replicate_succ, List.flatten_cons]
    rw [Nat.succ_mul] at hi
    rcases lt_or_le i base.length with hiL | hiL
    · rw [List.getD_append _ _ _ _ hiL, Nat.mod_eq_of_lt hiL]
    · rw [List.getD_append_right _ _ _ _ hiL]
      rw [ih (i - base.length) (by omega)]
      congr 1
      conv_rhs => rw [show i = (i - base.length) + base.length by omega, Nat.add_mod_right]

theorem runGenerator_eq_drive (T : Nat) (c : List Nat) :
    runGenerator ⟨T, 0, c⟩ = drive T ⟨T, 0, c⟩ := rfl

/-- C1: for every targetBytes and every chunkBytes > 0, pulling either
generator (text or binary) to end of stream yields chunks whose lengths
sum to exactly targetBytes; when targetBytes = 0 the generator yields no
chunks and end of stream is signalled on the very first pull. -/
theorem C1_chunk_lengths_sum_to_target (t cb : Nat) (_hcb : 0 < cb)
    (pattern : Option (List Nat)) (bpattern : String) (rng : Nat → Nat) :
    (((runGenerator (mkTextGenerator t pattern (some cb))).map List.length).sum = t ∧
     ((runGenerator (mkBinaryGenerator t (some cb) bpattern rng)).map List.length).sum = t) ∧
    (t = 0 →
      runGenerator (mkTextGenerator t pattern (some cb)) = [] ∧
      runGenerator (mkBinaryGenerator t (some cb) bpattern rng) = [] ∧
      (readStep (mkTextGenerator t pattern (some cb))).1 = none ∧
      (readStep (mkBinaryGenerator t (some cb) bpattern rng)).1 = none) := by
  constructor
  · constructor
    · exact runGenerator_sum_length t (mkTextGenerator t pattern (some cb)).chunk
        (mkTextGenerator_chunk_ne_nil t pattern (some cb))
    · exact runGenerator_sum_length t (mkBinaryGenerator t (some cb) bpattern rng).chunk
        (mkBinaryGenerator_chunk_ne_nil t (some cb) bpattern rng)
  · intro ht
    subst ht
    exact ⟨rfl, rfl, rfl, rfl⟩

theorem C1_chunk_lengths_sum_to_target_witness :
    ((runGenerator (mkTextGenerator 5 (some [65]) (some 2))).map List.length).sum = 5 ∧
    ((runGenerator (mkBinaryGenerator 5 (some 2) "zeros" (fun _ => 0))).map
      List.length).sum = 5 :=
  (C1_chunk_lengths_sum_to_target 5 2 (by decide) (some [65]) "zeros" (fun _ => 0)).1

/-- C2: the binary generator yields exactly ceil(targetBytes / chunkBytes)
chunks; every chunk before the last has length exactly chunkBytes, every
chunk has length at most chunkBytes, and when targetBytes mod chunkBytes
is nonzero the last chunk has exactly that remainder length. -/
theorem C2_chunk_count_and_shape (t cb : Nat) (hcb : 0 < cb) (bpattern : String)
    (rng : Nat → Nat) :
    (runGenerator (mkBinaryGenerator t (some cb) bpattern rng)).length = (t + cb - 1) / cb ∧
    (∀ x ∈ (runGenerator (mkBinaryGenerator t (some cb) bpattern rng)).dropLast,
      x.length = cb) ∧
    (∀ x ∈ runGenerator (mkBinaryGenerator t (some cb) bpattern rng), x.length ≤ cb) ∧
    (t % cb ≠ 0 →
      ((runGenerator (mkBinaryGenerator t (some cb) bpattern rng)).getLastD []).length
        = t % cb) := by
  have hcs : jsOrDefault (some cb) defaultChunkSize = cb :=
    jsOrDefault_some_pos cb defaultChunkSize hcb
  have hlen : (createBinaryPattern (jsOrDefault (some cb) defaultChunkSize)
      bpattern rng).length = cb := by
    rw [createBinaryPattern_length, hcs]
  have hc : createBinaryPattern (jsOrDefault (some cb) defaultChunkSize) bpattern rng ≠ [] :=
    List.ne_nil_of_length_pos (by omega)
  refine ⟨?_, ?_, ?_, ?_⟩
  · have h := drive_count _ hc t t 0 (by omega)
    rw [Nat.sub_zero, hlen] at h
    exact h
  · intro x hx
    have h := drive_dropLast_full _ hc t t 0 (by omega) x hx
    omega
  · intro x hx
    have h := drive_all_le _ hc t t 0 (by omega) x hx
    omega
  · intro hmod
    have hpos : 0 < t := by
      rcases Nat.eq_zero_or_pos t with h0 | h0
      · rw [h0, Nat.zero_mod] at hmod
        exact absurd rfl hmod
      · exact h0
    have h := drive_getLastD_length _ hc t t 0 (by omega) (by omega)
    rw [Nat.sub_zero, hlen, if_neg hmod] at h
    exact h

theorem C2_chunk_count_and_shape_witness :
    (runGenerator (mkBinaryGenerator 5 (some 2) "sequence" (fun _ => 0))).length
      = (5 + 2 - 1) / 2 ∧
    ((runGenerator (mkBinaryGenerator 5 (some 2) "sequence" (fun _ => 0))).getLastD
      []).length = 5 % 2 :=
  ⟨(C2_chunk_count_and_shape 5 2 (by decide) "sequence" (fun _ => 0)).1,
   (C2_chunk_count_and_shape 5 2 (by decide) "sequence" (fun _ => 0)).2.2.2 (by decide)⟩

/-- C3 counterexample: with chunkBytes = 10 (not a multiple of 16) and
targetBytes = 11, the byte at absolute offset 10 of the sequential-pattern
output is 0 (the second chunk restarts the 0..15 ramp), not 10 mod 16 = 10,
so the claimed identity fails for general chunkBytes > 0. -/
theorem C3_counterexample_offset_not_mod16 :
    ¬ ((runGenerator (mkBinaryGenerator 11 (some 10) "sequence"
          (fun _ => 0))).flatten.getD 10 0 = 10 % 16) := by decide

/-- C3 (amended): the prebuilt chunk restarts the 0..15 ramp at every chunk
boundary, so the byte at absolute offset i of the sequential-pattern output
equals (i mod chunkBytes) mod 16; whenever chunkBytes is a multiple of 16
(as the default 65536 is) this simplifies to i mod 16. -/
theorem C3_amended_sequential_bytes (t cb : Nat) (hcb : 0 < cb) (rng : Nat → Nat)
    (i : Nat) (hi : i < t) :
    (runGenerator (mkBinaryGenerator t (some cb) "sequence" rng)).flatten.getD i 0
      = (i % cb) % 16 ∧
    (cb % 16 = 0 →
      (runGenerator (mkBinaryGenerator t (some cb) "sequence" rng)).flatten.getD i 0
        = i % 16) := by
  have hcs : jsOrDefault (some cb) defaultChunkSize = cb :=
    jsOrDefault_some_pos cb defaultChunkSize hcb
  have hlen : (createBinaryPattern (jsOrDefault (some cb) defaultChunkSize)
      "sequence" rng).length = cb := by
    rw [createBinaryPattern_length, hcs]
  have hc : createBinaryPattern (jsOrDefault (some cb) defaultChunkSize)
      "sequence" rng ≠ [] :=
    List.ne_nil_of_length_pos (by omega)
  have hbyte := runGenerator_getD t _ hc i hi
  rw [hlen] at hbyte
  have hseq := createBinaryPattern_sequence_getD (jsOrDefault (some cb) defaultChunkSize)
    rng (i % cb) (by rw [hcs]; exact Nat.mod_lt _ hcb)
  have hmain : (runGenerator (mkBinaryGenerator t (some cb) "sequence"
      rng)).flatten.getD i 0 = (i % cb) % 16 := hbyte.trans hseq
  refine ⟨hmain, fun h16 => ?_⟩
  rw [hmain, Nat.mod_mod_of_dvd i (Nat.dvd_of_mod_eq_zero h16)]

theorem C3_amended_sequential_bytes_witness :
    (runGenerator (mkBinaryGenerator 20 (some 16) "sequence"
      (fun _ => 0))).flatten.getD 17 0 = (17 % 16) % 16 ∧
    (runGenerator (mkBinaryGenerator 20 (some 16) "sequence"
      (fun _ => 0))).flatten.getD 17 0 = 17 % 16 :=
  ⟨(C3_amended_sequential_bytes 20 16 (by decide) (fun _ => 0) 17 (by decide)).1,
   (C3_amended_sequential_bytes 20 16 (by decide) (fun _ => 0) 17 (by decide)).2 (by decide)⟩

/-- Positional value of a list of decimal digit characters (the value
`parseFloat` assigns to the digit string). -/
def digitsToNat (ds : List Char) : Nat :=
  ds.foldl (fun acc c => acc * 10 + (c.toNat - 48)) 0

/-- The unit table of `parseSize`: the captured unit is uppercased and
mapped to its binary multiplier; a missing unit defaults to `B`; any other
remainder fails the regex. -/
def unitMultiplier (u : List Char) : Option Nat :=
  match u.map Char.toUpper with
  | [] => some 1
  | ['B'] => some 1
  | ['K', 'B'] => some 1024
  | ['M', 'B'] => some (1024 * 1024)
  | ['G', 'B'] => some (1024 * 1024 * 1024)
  | ['T', 'B'] => some (1024 * 1024 * 1024 * 1024)
  | _ => none

/-- The optional fractional group of the regex: a dot must be followed by
at least one digit; with no leading dot the remainder passes through
unchanged. -/
def parseFraction (r : List Char) : Option (List Char × List Char) :=
  if r.head? = some '.' then
    let fds := r.tail.takeWhile Char.isDigit
    if fds.isEmpty then none else some (fds, r.tail.dropWhile Char.isDigit)
  else some ([], r)

/-- `parseSize`: the anchored regex digits, optional fraction, optional
whitespace, optional unit; the result is
`Math.floor(parseFloat(number) * multiplier)`, computed exactly over
rationals as `(intPart * 10^f + fracPart) * multiplier / 10^f` in natural
division (the JavaScript double arithmetic is modelled as exact). -/
def parseSize (s : String) : Option Nat :=
  let cs := s.toList
  let intDigits := cs.takeWhile Char.isDigit
  let afterInt := cs.dropWhile Char.isDigit
  if intDigits.isEmpty then none
  else
    match parseFraction afterInt with
    | none => none
    | some (fracDigits, afterNum) =>
      match unitMultiplier (afterNum.dropWhile Char.isWhitespace) with
      | none => none
      | some mult =>
        some ((digitsToNat intDigits * 10 ^ fracDigits.length + digitsToNat fracDigits)
          * mult / 10 ^ fracDigits.length)

example : parseSize "100MB" = some (100 * 1024 * 1024) := by decide
example : parseSize "1.5GB" = some 1610612736 := by decide
example : parseSize "500" = some 500 := by decide
example : parseSize "bogus" = none := by decide
example : parseSize "0" = some 0 := by decide
example : parseSize "0B" = some 0 := by decide
example : parseSize "1.25 kB" = some 1280 := by decide
example : parseSize "5." = none := by decide
example : parseSize "" = none := by decide
example : parseSize "2tb" = some (2 * 1024 * 1024 * 1024 * 1024) := by decide
example : parseSize "10 Mb" = some (10 * 1024 * 1024) := by decide
example : parseSize "-5MB" = none := by decide
example : parseSize "5 MB extra" = none := by decide

theorem string_mk_toList (l : List Char) : (String.mk l).toList = l := rfl

theorem takeWhile_append_eq (p : Char → Bool) :
    ∀ l1 l2 : List Char, (∀ c ∈ l1, p c = true) →
      (∀ c l', l2 = c :: l' → p c = false) →
      (l1 ++ l2).takeWhile p = l1 ∧ (l1 ++ l2).dropWhile p = l2 := by
  intro l1
  induction l1 with
  | nil =>
    intro l2 h1 h2
    rcases l2 with _ | ⟨c, l'⟩
    · exact ⟨rfl, rfl⟩
    · have hc := h2 c l' rfl
      rw [List.nil_append]
      constructor
      · rw [List.takeWhile_cons, hc]
        rfl
      · rw [List.dropWhile_cons, hc]
        rfl
  | cons a l1 ih =>
    intro l2 h1 h2
    have ha := h1 a (List.mem_cons_self a l1)
    obtain ⟨ht, hd⟩ := ih l2 (fun c hc => h1 c (List.mem_cons_of_mem a hc)) h2
    rw [List.cons_append]
    constructor
    · rw [List.takeWhile_cons, ha]
      simp [ht]
    · rw [List.dropWhile_cons, ha]
      simp [hd]

theorem parseFraction_no_dot (r : List Char) (h : r.head? ≠ some '.') :
    parseFraction r = some ([], r) := by
  rw [parseFraction, if_neg h]

/-- Generic shape of `parseSize`: for any nonempty integer digit list, any
(possibly empty) fraction digit list, any amount of whitespace and any
recognised unit spelling, the parse succeeds with the floor of the decimal
number times the binary multiplier. -/
theorem parseSize_shape (ds fs u : List Char) (k m : Nat)
    (hds : ds ≠ []) (hd : ∀ c ∈ ds, c.isDigit = true)
    (hf : ∀ c ∈ fs, c.isDigit = true)
    (hu : unitMultiplier u = some m)
    (hud : ∀ c l', u = c :: l' →
      c.isDigit = false ∧ c.isWhitespace = false ∧ c ≠ '.') :
    parseSize ⟨ds ++ ((if fs = [] then [] else '.' :: fs) ++
        (List.replicate k ' ' ++ u))⟩
      = some ((digitsToNat ds * 10 ^ fs.length + digitsToNat fs) * m
          / 10 ^ fs.length) := by
  have hds' : ds.isEmpty = false := by
    rcases ds with _ | _
    · exact absurd rfl hds
    · rfl
  have hsp_digit : ∀ c l', List.replicate k ' ' ++ u = c :: l' → c.isDigit = false := by
    intro c l' heq
    rcases k with _ | k2
    · rw [List.replicate_zero, List.nil_append] at heq
      exact (hud c l' heq).1
    · rw [List.replicate_succ, List.cons_append] at heq
      injection heq with h1 _
      rw [← h1]
      decide
  have hsp_dot : (List.replicate k ' ' ++ u).head? ≠ some '.' := by
    rcases hspu : List.replicate k ' ' ++ u with _ | ⟨c, l'⟩
    · simp
    · rcases k with _ | k2
      · rw [List.replicate_zero, List.nil_append] at hspu
        have hcd := (hud c l' hspu).2.2
        simp only [List.head?_cons, ne_eq, Option.some.injEq]
        exact hcd
      · rw [List.replicate_succ, List.cons_append] at hspu
        injection hspu with h1 _
        rw [← h1]
        simp only [List.head?_cons, ne_eq, Option.some.injEq]
        decide
  have hsp_ws : ∀ c ∈ List.replicate k ' ', Char.isWhitespace c = true := by
    intro c hc
    rw [List.eq_of_mem_replicate hc]
    decide
  have hu_ws : ∀ c l', u = c :: l' → Char.isWhitespace c = false := by
    intro c l' heq
    exact (hud c l' heq).2.1
  have hdw2 : (List.replicate k ' ' ++ u).dropWhile Char.isWhitespace = u :=
    (takeWhile_append_eq Char.isWhitespace (List.replicate k ' ') u hsp_ws hu_ws).2
  by_cases hfs : fs = []
  · subst hfs
    rw [if_pos rfl, List.nil_append]
    obtain ⟨htw, hdw⟩ :=
      takeWhile_append_eq Char.isDigit ds (List.replicate k ' ' ++ u) hd hsp_digit
    rw [parseSize, string_mk_toList, htw, hdw, hds']
    rw [parseFraction_no_dot _ hsp_dot]
    simp only [Bool.false_eq_true, if_false, hdw2, hu]
  · rw [if_neg hfs]
    have hfs' : fs.isEmpty = false := by
      rcases fs with _ | _
      · exact absurd rfl hfs
      · rfl
    have hdot_digit : ∀ c l',
        ('.' :: fs) ++ (List.replicate k ' ' ++ u) = c :: l' → c.isDigit = false := by
      intro c l' heq
      rw [List.cons_append] at heq
      injection heq with h1 _
      rw [← h1]
      decide
    obtain ⟨htw, hdw⟩ := takeWhile_append_eq Char.isDigit ds
      (('.' :: fs) ++ (List.replicate k ' ' ++ u)) hd hdot_digit
    obtain ⟨htwf, hdwf⟩ :=
      takeWhile_append_eq Char.isDigit fs (List.replicate k ' ' ++ u) hf hsp_digit
    rw [parseSize, string_mk_toList, htw, hdw, hds']
    have hpf : parseFraction (('.' :: fs) ++ (List.replicate k ' ' ++ u))
        = some (fs, List.replicate k ' ' ++ u) := by
      rw [List.cons_append, parseFraction, List.head?_cons, if_pos rfl]
      simp only [List.tail_cons, htwf, hdwf, hfs', Bool.false_eq_true, if_false]
    rw [hpf]
    simp only [Bool.false_eq_true, if_false, hdw2, hu]

/-- Every spelling the case-insensitive unit group accepts (absent unit
included), paired with its binary multiplier. -/
def sizeUnitVariants : List (List Char × Nat) :=
  [([], 1),
   (['B'], 1), (['b'], 1),
   (['K', 'B'], 1024), (['K', 'b'], 1024), (['k', 'B'], 1024), (['k', 'b'], 1024),
   (['M', 'B'], 1024 * 1024), (['M', 'b'], 1024 * 1024),
   (['m', 'B'], 1024 * 1024), (['m', 'b'], 1024 * 1024),
   (['G', 'B'], 1024 * 1024 * 1024), (['G', 'b'], 1024 * 1024 * 1024),
   (['g', 'B'], 1024 * 1024 * 1024), (['g', 'b'], 1024 * 1024 * 1024),
   (['T', 'B'], 1024 * 1024 * 1024 * 1024), (['T', 'b'], 1024 * 1024 * 1024 * 1024),
   (['t', 'B'], 1024 * 1024 * 1024 * 1024), (['t', 'b'], 1024 * 1024 * 1024 * 1024)]

/-- C4: `parseSize` maps `<number>[whitespace]<unit>` (unit in B, KB, MB,
GB, TB, case-insensitive, default B, fractional number allowed) to the
floor of the number times the binary multiplier, in particular the four
concrete values of the spec, and rejects non-matching strings such as
"bogus". -/
theorem C4_parseSize_semantics (ds fs u : List Char) (k m : Nat)
    (hds : ds ≠ []) (hd : ∀ c ∈ ds, c.isDigit = true)
    (hf : ∀ c ∈ fs, c.isDigit = true)
    (huv : (u, m) ∈ sizeUnitVariants) :
    parseSize "100MB" = some (100 * 1024 * 1024) ∧
    parseSize "1.5GB" = some (3 * 1024 * 1024 * 1024 / 2) ∧
    parseSize "500" = some 500 ∧
    parseSize "bogus" = none ∧
    parseSize ⟨ds ++ ((if fs = [] then [] else '.' :: fs) ++
        (List.replicate k ' ' ++ u))⟩
      = some ((digitsToNat ds * 10 ^ fs.length + digitsToNat fs) * m
          / 10 ^ fs.length) := by
  refine ⟨by decide, by decide, by decide, by decide, ?_⟩
  have hu : unitMultiplier u = some m ∧
      ∀ c l', u = c :: l' →
        c.isDigit = false ∧ c.isWhitespace = false ∧ c ≠ '.' := by
    fin_cases huv <;>
      exact ⟨by decide, by intro c l' heq; cases heq <;> decide⟩
  exact parseSize_shape ds fs u k m hds hd hf hu.1 hu.2

theorem C4_parseSize_semantics_witness : parseSize "1.25 kB" = some 1280 := by
  have h := (C4_parseSize_semantics ['1'] ['2', '5'] ['k', 'B'] 1 1024
    (by decide) (by decide) (by decide) (by decide)).2.2.2.2
  exact h.trans (by decide)

theorem mkTextGenerator_chunk_getD (t : Nat) (pattern : Option (List Nat))
    (cso : Option Nat) (j : Nat) (hj : j < jsOrDefault cso defaultChunkSize) :
    (mkTextGenerator t pattern cso).chunk.getD j 0
      = (textBasePattern pattern).getD (j % (textBasePattern pattern).length) 0 := by
  have hL : 0 < (textBasePattern pattern).length := textBasePattern_length_pos pattern
  have hbase : textBasePattern pattern ≠ [] := List.ne_nil_of_length_pos hL
  have hrep := le_ceil_div_mul (jsOrDefault cso defaultChunkSize)
    (textBasePattern pattern).length hL
  have h1 : (mkTextGenerator t pattern cso).chunk
      = (List.flatten (List.replicate
          ((jsOrDefault cso defaultChunkSize + (textBasePattern pattern).length - 1) /
            (textBasePattern pattern).length)
          (textBasePattern pattern))).take (jsOrDefault cso defaultChunkSize) := rfl
  rw [h1, getD_take_of_lt _ _ _ hj]
  exact getD_flatten_replicate (textBasePattern pattern) hbase _ j (by omega)

/-- C5 counterexample: the constructor appends a line feed to the
caller-supplied pattern, so the request targetBytes = 10, pattern "AB"
produces "AB\nAB\nAB\nA", not "ABABABABAB": byte 2 of the output is the
line feed 10, while the claimed output has 65 there. -/
theorem C5_counterexample_newline_in_output :
    (runGenerator (mkTextGenerator 10 (some (strBytes "AB")) none)).flatten
      ≠ strBytes "ABABABABAB" := by
  intro heq
  have hc := mkTextGenerator_chunk_ne_nil 10 (some (strBytes "AB")) none
  have hb := runGenerator_getD 10 (mkTextGenerator 10 (some (strBytes "AB")) none).chunk
    hc 2 (by omega)
  have hlen : (mkTextGenerator 10 (some (strBytes "AB")) none).chunk.length = 65536 := by
    rw [mkTextGenerator_chunk_length]
    rfl
  rw [hlen, show (2 : Nat) % 65536 = 2 from rfl] at hb
  have hch := mkTextGenerator_chunk_getD 10 (some (strBytes "AB")) none 2 (by decide)
  have hpat : (textBasePattern (some (strBytes "AB"))).getD
      (2 % (textBasePattern (some (strBytes "AB"))).length) 0 = 10 := by decide
  rw [hch, hpat] at hb
  have hb2 : (runGenerator (mkTextGenerator 10 (some (strBytes "AB")) none)).flatten.getD
      2 0 = 10 := hb
  rw [heq] at hb2
  have h65 : (strBytes "ABABABABAB").getD 2 0 = 65 := by decide
  rw [h65] at hb2
  exact absurd hb2 (by decide)

/-- C5 (amended): for the request targetBytes = 10 with caller pattern
"AB", the produced output is the first 10 bytes of "AB\n" repeated (the
constructor appends a line feed to the supplied pattern), namely
"AB\nAB\nAB\nA". -/
theorem C5_amended_text_output :
    (runGenerator (mkTextGenerator 10 (some (strBytes "AB")) none)).flatten
      = strBytes "AB\nAB\nAB\nA" := by
  have hc := mkTextGenerator_chunk_ne_nil 10 (some (strBytes "AB")) none
  have hlen1 : (runGenerator (mkTextGenerator 10 (some (strBytes "AB")) none)).flatten.length
      = 10 :=
    runGenerator_flatten_length 10 (mkTextGenerator 10 (some (strBytes "AB")) none).chunk hc
  have hbyte : ∀ j, j < 10 →
      (runGenerator (mkTextGenerator 10 (some (strBytes "AB")) none)).flatten.getD j 0
        = (textBasePattern (some (strBytes "AB"))).getD
            (j % (textBasePattern (some (strBytes "AB"))).length) 0 := by
    intro j hj
    have hb := runGenerator_getD 10
      (mkTextGenerator 10 (some (strBytes "AB")) none).chunk hc j hj
    have hlen : (mkTextGenerator 10 (some (strBytes "AB")) none).chunk.length = 65536 := by
      rw [mkTextGenerator_chunk_length]
      rfl
    rw [hlen, Nat.mod_eq_of_lt (by omega)] at hb
    have hch := mkTextGenerator_chunk_getD 10 (some (strBytes "AB")) none j
      (by have h64 : jsOrDefault none defaultChunkSize = 65536 := rfl; omega)
    exact hb.trans hch
  apply List.ext_getElem
  · rw [hlen1]
    rfl
  · intro n h1 h2
    have hn : n < 10 := hlen1 ▸ h1
    rw [← List.getD_eq_getElem _ 0 h1, ← List.getD_eq_getElem _ 0 h2]
    rw [hbyte n hn]
    have hfin : ∀ j, j < 10 →
        (textBasePattern (some (strBytes "AB"))).getD
            (j % (textBasePattern (some (strBytes "AB"))).length) 0
          = (strBytes "AB\nAB\nAB\nA").getD j 0 := by decide
    exact hfin n hn

/-- The generator dispatch of `generateData`: text and binary produce the
full chunk sequence; any other type fails with the Unknown type error
before any chunk is produced. -/
def generateData (type : String) (targetBytes : Nat) (pattern : Option (List Nat))
    (binaryPattern : String) (chunkSize : Option Nat) (rng : Nat → Nat) :
    Except String (List (List Nat)) :=
  if type = "text" then
    Except.ok (runGenerator (mkTextGenerator targetBytes pattern chunkSize))
  else if type = "binary" then
    Except.ok (runGenerator (mkBinaryGenerator targetBytes chunkSize binaryPattern rng))
  else
    Except.error ("Unknown type: " ++ type)

/-- C6 counterexample: a chunk size of 0 (the only representable value
with chunkBytes ≤ 0 coming out of the size parser) does NOT make
construction fail: the binary generator is built successfully with the
default 65536-byte chunk and generation returns chunks normally, so no
InvalidChunkSize validation exists in the code. -/
theorem C6_counterexample_zero_chunk_size_no_error :
    generateData "binary" 5 none "zeros" (some 0) (fun _ => 0)
      = Except.ok (runGenerator (mkBinaryGenerator 5 (some 0) "zeros" (fun _ => 0))) ∧
    (mkBinaryGenerator 5 (some 0) "zeros" (fun _ => 0)).chunk.length = 64 * 1024 := by
  constructor
  · rw [generateData, if_neg (by decide), if_pos rfl]
  · rw [mkBinaryGenerator_eq, createBinaryPattern_length]
    rfl

/-- C6 (amended): the code performs no chunk-size validation at all: a
chunk size of 0 is silently replaced by the default 65536 in both
constructors (and the size parser only produces non-negative values, so no
negative chunk size can reach them); the only construction-time validation
is the content kind, which fails in `generateData` with the Unknown type
error before any chunk is produced. -/
theorem C6_amended_no_chunk_size_validation (type : String) (h1 : type ≠ "text")
    (h2 : type ≠ "binary") (t : Nat) (pat : Option (List Nat)) (bpat : String)
    (cso : Option Nat) (rng : Nat → Nat) :
    generateData type t pat bpat cso rng = Except.error ("Unknown type: " ++ type) ∧
    (mkBinaryGenerator t (some 0) bpat rng).chunk.length = defaultChunkSize ∧
    (mkTextGenerator t pat (some 0)).chunk.length = defaultChunkSize := by
  refine ⟨?_, ?_, ?_⟩
  · rw [generateData, if_neg h1, if_neg h2]
  · rw [mkBinaryGenerator_eq, createBinaryPattern_length]
    rfl
  · rw [mkTextGenerator_chunk_length]
    rfl

theorem C6_amended_no_chunk_size_validation_witness :
    generateData "bogus" 5 none "zeros" (some 0) (fun _ => 0)
      = Except.error ("Unknown type: " ++ "bogus") ∧
    (mkBinaryGenerator 5 (some 0) "zeros" (fun _ => 0)).chunk.length = defaultChunkSize ∧
    (mkTextGenerator 5 none (some 0)).chunk.length = defaultChunkSize :=
  C6_amended_no_chunk_size_validation "bogus" (by decide) (by decide) 5 none "zeros"
    (some 0) (fun _ => 0)

/-- C7: for every text-mode request (any caller pattern, any target, any
chunk-size option) the concatenated output stream has length in bytes
exactly equal to the target size: no header, footer or metadata is
added. -/
theorem C7_text_output_exact_length (t : Nat) (pat : Option (List Nat))
    (cso : Option Nat) :
    (runGenerator (mkTextGenerator t pat cso)).flatten.length = t :=
  runGenerator_flatten_length t (mkTextGenerator t pat cso).chunk
    (mkTextGenerator_chunk_ne_nil t pat cso)

/-- State threaded through the data-event listener of `generateData`: the
byte counter, the last reported progress percentage, the reported progress
log, and the bytes forwarded to the sink. -/
structure ProgressState where
  bytesWritten : Nat
  lastProgress : Nat
  log : List (Nat × Nat)
  written : List Nat

/-- The data-event listener: advances the byte counter, reports a progress
line when a new 10% threshold is crossed or the target is reached, and
forwards the chunk unchanged; `Math.floor(bytesWritten / targetBytes * 100)`
is modelled as exact natural division. -/
def onData (targetBytes : Nat) (st : ProgressState) (chunk : List Nat) : ProgressState :=
  if st.lastProgress + 10 ≤ (st.bytesWritten + chunk.length) * 100 / targetBytes
      ∨ st.bytesWritten + chunk.length = targetBytes then
    { bytesWritten := st.bytesWritten + chunk.length
      lastProgress := (st.bytesWritten + chunk.length) * 100 / targetBytes
      log := st.log ++ [((st.bytesWritten + chunk.length) * 100 / targetBytes,
        st.bytesWritten + chunk.length)]
      written := st.written ++ chunk }
  else
    { bytesWritten := st.bytesWritten + chunk.length
      lastProgress := st.lastProgress
      log := st.log
      written := st.written ++ chunk }

/-- The streaming pipeline of `generateData` with the progress listener
attached: fold the emitted chunks through the listener. -/
def pipelineWithProgress (targetBytes : Nat) (chunks : List (List Nat)) : ProgressState :=
  chunks.foldl (onData targetBytes) ⟨0, 0, [], []⟩

theorem onData_written (targetBytes : Nat) (st : ProgressState) (chunk : List Nat) :
    (onData targetBytes st chunk).written = st.written ++ chunk := by
  rw [onData]
  split_ifs <;> rfl

theorem foldl_onData_written (targetBytes : Nat) :
    ∀ (chunks : List (List Nat)) (st : ProgressState),
      (chunks.foldl (onData targetBytes) st).written
        = st.written ++ chunks.flatten := by
  intro chunks
  induction chunks with
  | nil =>
    intro st
    simp
  | cons c cs ih =>
    intro st
    rw [List.foldl_cons, ih, onData_written, List.flatten_cons, List.append_assoc]

/-- C8: for the non-random fill strategies the chunk built at construction
does not depend on the randomness source, so two runs with identical
parameters produce identical chunk sequences (text mode consumes no
randomness at all, so its determinism is definitional); and the progress
listener forwards every chunk unchanged and in order, so attaching it
never alters the byte stream. -/
theorem C8_determinism_and_progress (t : Nat) (cso : Option Nat) (bpat : String)
    (hbp : bpat ≠ "random") (rng1 rng2 : Nat → Nat) (pat : Option (List Nat))
    (targetBytes : Nat) (chunks : List (List Nat)) :
    runGenerator (mkBinaryGenerator t cso bpat rng1)
      = runGenerator (mkBinaryGenerator t cso bpat rng2) ∧
    runGenerator (mkTextGenerator t pat cso) = runGenerator (mkTextGenerator t pat cso) ∧
    (pipelineWithProgress targetBytes chunks).written = chunks.flatten := by
  refine ⟨?_, rfl, ?_⟩
  · have hch : createBinaryPattern (jsOrDefault cso defaultChunkSize) bpat rng1
        = createBinaryPattern (jsOrDefault cso defaultChunkSize) bpat rng2 := by
      simp [createBinaryPattern, hbp]
    rw [mkBinaryGenerator_eq, mkBinaryGenerator_eq, hch]
  · rw [pipelineWithProgress, foldl_onData_written]
    simp

theorem C8_determinism_and_progress_witness :
    runGenerator (mkBinaryGenerator 4 (some 2) "zeros" (fun _ => 0))
      = runGenerator (mkBinaryGenerator 4 (some 2) "zeros" (fun n => n + 1)) ∧
    runGenerator (mkTextGenerator 4 none (some 2))
      = runGenerator (mkTextGenerator 4 none (some 2)) ∧
    (pipelineWithProgress 4 [[0, 0], [0, 0]]).written = [[0, 0], [0, 0]].flatten :=
  C8_determinism_and_progress 4 (some 2) "zeros" (by decide) (fun _ => 0)
    (fun n => n + 1) none 4 [[0, 0], [0, 0]]

/-- C9: with the random fill strategy the pseudo-random buffer is filled
exactly once at construction and reused verbatim for every emitted chunk,
so the output is periodic with period equal to the effective chunk size:
bytes at offsets i and i + chunkBytes agree whenever both lie in range. -/
theorem C9_random_output_periodic (t : Nat) (cso : Option Nat) (rng : Nat → Nat)
    (i : Nat) (h : i + jsOrDefault cso defaultChunkSize < t) :
    (runGenerator (mkBinaryGenerator t cso "random" rng)).flatten.getD i 0
      = (runGenerator (mkBinaryGenerator t cso "random" rng)).flatten.getD
          (i + jsOrDefault cso defaultChunkSize) 0 := by
  have hlen : (createBinaryPattern (jsOrDefault cso defaultChunkSize) "random"
      rng).length = jsOrDefault cso defaultChunkSize :=
    createBinaryPattern_length _ _ _
  have hpos : 0 < jsOrDefault cso defaultChunkSize :=
    jsOrDefault_pos cso defaultChunkSize (by decide)
  have hc : createBinaryPattern (jsOrDefault cso defaultChunkSize) "random" rng ≠ [] :=
    List.ne_nil_of_length_pos (by omega)
  have h1 := runGenerator_getD t _ hc i (by omega)
  have h2 := runGenerator_getD t _ hc (i + jsOrDefault cso defaultChunkSize) (by omega)
  rw [hlen] at h1 h2
  rw [Nat.add_mod_right] at h2
  exact h1.trans h2.symm

theorem C9_random_output_periodic_witness :
    (runGenerator (mkBinaryGenerator 5 (some 2) "random" (fun n => n))).flatten.getD 0 0
      = (runGenerator (mkBinaryGenerator 5 (some 2) "random"
          (fun n => n))).flatten.getD (0 + jsOrDefault (some 2) defaultChunkSize) 0 :=
  C9_random_output_periodic 5 (some 2) (fun n => n) 0 (by decide)

/-- C10: a chunk size that parses to 0 (for example the strings "0" and
"0B") raises no error: both constructors silently substitute the default
65536-byte chunk size, and generation proceeds exactly as if
chunkBytes = 65536 had been requested. -/
theorem C10_zero_chunk_size_defaults (t : Nat) (pat : Option (List Nat))
    (bpat : String) (rng : Nat → Nat) :
    parseSize "0" = some 0 ∧
    parseSize "0B" = some 0 ∧
    mkTextGenerator t pat (some 0) = mkTextGenerator t pat (some defaultChunkSize) ∧
    mkBinaryGenerator t (some 0) bpat rng
      = mkBinaryGenerator t (some defaultChunkSize) bpat rng :=
  ⟨by decide, by decide, rfl, rfl⟩
